import Mathlib

/-!
Verification of the HTML-to-sections transformer (`transform_content.py`).

The development shallowly embeds the repository's code:
* `ContentParser` (the state of the Python class of the same name), its
  handler methods `handle_starttag`, `handle_endtag`, `handle_data`, the
  finalizer `save_section` and the entry point `parse_content`;
* the whitespace-normalization pipeline used by `save_section`
  (`''.join`, `str.strip`, the two `re.sub` passes);
* the JSON tree walker `transform_content_fields`;
* a token-level model of the streaming HTML tokenizer the class inherits
  from the standard library (three token categories: start tags, end tags,
  text data), together with its incremental input buffer for incomplete
  trailing markup.

Machine text is ASCII in scope: the whitespace predicate models the ASCII
part of Python's `str.strip` / regex `\s`; character references, comments
and declarations do not occur in the inputs the claims mention and are out
of the tokenizer model's scope.
-/

/-- ASCII whitespace as recognized by Python's `str.strip` and regex `\s`. -/
def isPySpace (c : Char) : Bool :=
  c = ' ' || c = '\t' || c = '\n' || c = '\r' || c = '\x0b' || c = '\x0c'

/-- Right-strip: drop trailing characters satisfying `isPySpace`. -/
def rstripL : List Char → List Char
  | [] => []
  | c :: rest =>
    match rstripL rest with
    | [] => if isPySpace c then [] else [c]
    | r => c :: r

/-- Python `str.strip()` on a character list. -/
def pyStripL (l : List Char) : List Char :=
  rstripL (l.dropWhile isPySpace)

/-- Python `str.strip()`. -/
def pyStrip (s : String) : String :=
  ⟨pyStripL s.data⟩

/-- Python `''.join(parts)`. -/
def joinAll : List String → String
  | [] => ""
  | x :: xs => x ++ joinAll xs

/-- Python `sep.join(parts)`. -/
def joinSep (sep : String) : List String → String
  | [] => ""
  | [x] => x
  | x :: xs => x ++ sep ++ joinSep sep xs

/-- Python `x or default` on an optional string (`None` and `""` are falsy). -/
def pyOr (x : Option String) (d : String) : String :=
  match x with
  | none => d
  | some s => if s = "" then d else s

/-- One rewriting pass of `re.sub(r' +', ' ', s)`: every run of two or more
space characters collapses to a single space. -/
def sub_spaces : List Char → List Char
  | [] => []
  | [c] => [c]
  | c1 :: c2 :: rest =>
    if c1 = ' ' ∧ c2 = ' ' then sub_spaces (c2 :: rest)
    else c1 :: sub_spaces (c2 :: rest)

/-- Fuelled worker for `re.sub(r'\n\s*\n+', '\n\n', s)`.  A match starts at a
newline; the greedy `\s*` with backtracking makes the match extend exactly to
the last newline of the maximal whitespace run that follows; the match is
replaced by two newlines and scanning resumes after it. -/
def sub_newlinesF : Nat → List Char → List Char
  | 0, l => l
  | _ + 1, [] => []
  | fuel + 1, c :: rest =>
    if c = '\n' then
      let ws := rest.takeWhile isPySpace
      if '\n' ∈ ws then
        let k := ws.length - (ws.reverse.takeWhile (fun c2 => c2 != '\n')).length
        '\n' :: '\n' :: sub_newlinesF fuel (rest.drop k)
      else c :: sub_newlinesF fuel rest
    else c :: sub_newlinesF fuel rest

/-- `re.sub(r'\n\s*\n+', '\n\n', s)` (fuel = length suffices: every step
consumes at least one character). -/
def sub_newlines (l : List Char) : List Char :=
  sub_newlinesF l.length l

/-- The description pipeline of `ContentParser._save_section` (lines 57-61):
join the accumulated parts, strip, collapse blank-line runs, collapse space
runs, strip again. -/
def normalize_description (parts : List String) : String :=
  ⟨pyStripL (sub_spaces (sub_newlines (pyStripL (joinAll parts).data)))⟩

/-- A section record: one output element of the parser.  The Python dict keys
are `headingType`, `section`, `description`; the middle field is named
`sectionText` here because `section` is a Lean keyword. -/
structure SectionRec where
  headingType : String
  sectionText : String
  description : String
deriving DecidableEq

/-- The mutable state of the Python `ContentParser` instance.  `rawdata` is
the input buffer inherited from the standard library's incremental HTML
parser: it holds incomplete trailing markup between `feed` calls and is NOT
among the fields `parse_content` resets. -/
structure ContentParser where
  sections : List SectionRec
  current_heading : Option String
  current_heading_type : Option String
  current_content : List String
  in_heading : Bool
  tag_stack : List String
  rawdata : String
deriving DecidableEq

/-- The state established by `ContentParser.__init__`. -/
def initSt : ContentParser :=
  { sections := [], current_heading := none, current_heading_type := none,
    current_content := [], in_heading := false, tag_stack := [], rawdata := "" }

/-- The heading tag list of `handle_starttag` / `handle_endtag`. -/
def heading_tags : List String := ["h1", "h2", "h3", "h4", "h5", "h6"]

/-- `self.preserve_tags` from `__init__`. -/
def preserve_tags : List String := ["b", "strong", "i", "em", "a", "sup", "sub"]

/-- Python f-string rendering of an attribute value; the absent value of a
valueless attribute is `None` and interpolates as the literal text `None`. -/
def fstr : Option String → String
  | some v => v
  | none => "None"

/-- `' '.join([f'\x7bk\x7d="\x7bv\x7d"' for k, v in attrs])`. -/
def attrsStr (attrs : List (String × Option String)) : String :=
  joinSep " " (attrs.map (fun kv => kv.1 ++ "=\"" ++ fstr kv.2 ++ "\""))

/-- `ContentParser._save_section` (lines 54-72): emit the pending section when
the heading buffer is truthy (non-empty, pre-trim) or content accumulated,
then reset the per-section buffers. -/
def save_section (st : ContentParser) : ContentParser :=
  let st1 :=
    if st.current_heading.getD "" ≠ "" ∨ st.current_content ≠ [] then
      { st with sections := st.sections ++
          [{ headingType := pyOr st.current_heading_type "p",
             sectionText :=
               if st.current_heading.getD "" ≠ "" then pyStrip (st.current_heading.getD "")
               else "",
             description := normalize_description st.current_content }] }
    else st
  { st1 with current_heading := none, current_heading_type := none, current_content := [] }

/-- `ContentParser.handle_starttag` (lines 19-38). -/
def handle_starttag (st : ContentParser) (tag : String)
    (attrs : List (String × Option String)) : ContentParser :=
  if tag ∈ heading_tags then
    let st0 := if st.current_heading ≠ none then save_section st else st
    { st0 with current_heading_type := some tag, current_heading := some "",
               in_heading := true }
  else if tag ∈ preserve_tags then
    let a := attrsStr attrs
    let st1 :=
      if a ≠ "" then
        { st with current_content := st.current_content ++ ["<" ++ tag ++ " " ++ a ++ ">"] }
      else
        { st with current_content := st.current_content ++ ["<" ++ tag ++ ">"] }
    { st1 with tag_stack := st1.tag_stack ++ [tag] }
  else if tag = "br" then
    { st with current_content := st.current_content ++ ["\n"] }
  else st

/-- `ContentParser.handle_endtag` (lines 40-46). -/
def handle_endtag (st : ContentParser) (tag : String) : ContentParser :=
  if tag ∈ heading_tags then
    { st with in_heading := false }
  else if tag ∈ preserve_tags then
    if st.tag_stack ≠ [] ∧ st.tag_stack.getLast? = some tag then
      { st with current_content := st.current_content ++ ["</" ++ tag ++ ">"],
                tag_stack := st.tag_stack.dropLast }
    else st
  else st

/-- `ContentParser.handle_data` (lines 48-52). -/
def handle_data (st : ContentParser) (d : String) : ContentParser :=
  if st.in_heading then
    { st with current_heading := some (st.current_heading.getD "" ++ d) }
  else
    { st with current_content := st.current_content ++ [d] }

/-- A token of the streaming tokenizer: start tag with attributes, end tag,
or text data. -/
inductive Tok where
  | startTag : String → List (String × Option String) → Tok
  | endTag : String → Tok
  | text : String → Tok
deriving DecidableEq

/-- Dispatch one token to the corresponding handler method. -/
def handle_token (st : ContentParser) : Tok → ContentParser
  | Tok.startTag tag attrs => handle_starttag st tag attrs
  | Tok.endTag tag => handle_endtag st tag
  | Tok.text d => handle_data st d

/-- Run the handlers over a token stream, in order. -/
def feedTokens (toks : List Tok) (st : ContentParser) : ContentParser :=
  toks.foldl handle_token st

/-- The end-of-pass finalization of `parse_content` (lines 89-91): save the
last section when a heading was opened (`is not None`) or content remains. -/
def end_save (st : ContentParser) : ContentParser :=
  if st.current_heading ≠ none ∨ st.current_content ≠ [] then save_section st else st

/-- String of a character list. -/
def strOf (l : List Char) : String := ⟨l⟩

/-- Lowercased string of a character list (tag and attribute names are
lowercased by the tokenizer). -/
def lowerStr (l : List Char) : String := ⟨l.map Char.toLower⟩

/-- Modelled from the spec: locate the `>` that closes a tag, skipping over
quoted attribute values; `none` when the tag is incomplete (the tokenizer
then keeps the markup buffered). Returns the characters before the `>` and
the characters after it. -/
def findGt : Option Char → List Char → Option (List Char × List Char)
  | _, [] => none
  | some q, c :: cs =>
    if c = q then (findGt none cs).map (fun pr => (c :: pr.1, pr.2))
    else (findGt (some q) cs).map (fun pr => (c :: pr.1, pr.2))
  | none, c :: cs =>
    if c = '>' then some ([], cs)
    else if c = '"' || c = '\'' then (findGt (some c) cs).map (fun pr => (c :: pr.1, pr.2))
    else (findGt none cs).map (fun pr => (c :: pr.1, pr.2))

/-- Modelled from the spec: a tag name extends until whitespace, `/` or the
closing bracket. -/
def takeTagName : List Char → List Char × List Char
  | [] => ([], [])
  | c :: cs =>
    if isPySpace c || c = '/' || c = '>' then ([], c :: cs)
    else
      match takeTagName cs with
      | (name, rest) => (c :: name, rest)

/-- Modelled from the spec: an attribute name extends until whitespace, `=`,
`/` or the closing bracket. -/
def takeAttrName : List Char → List Char × List Char
  | [] => ([], [])
  | c :: cs =>
    if isPySpace c || c = '=' || c = '/' || c = '>' then ([], c :: cs)
    else
      match takeAttrName cs with
      | (name, rest) => (c :: name, rest)

/-- Characters of an attribute value up to (excluding) a terminator. -/
def takeValue (stop : Char → Bool) : List Char → List Char × List Char
  | [] => ([], [])
  | c :: cs =>
    if stop c then ([], cs)
    else
      match takeValue stop cs with
      | (v, rest) => (c :: v, rest)

/-- Characters of an unquoted attribute value (until whitespace or end). -/
def takeUnquoted : List Char → List Char × List Char
  | [] => ([], [])
  | c :: cs =>
    if isPySpace c then ([], c :: cs)
    else
      match takeUnquoted cs with
      | (v, rest) => (c :: v, rest)

/-- Modelled from the spec: attribute parsing inside a start tag.  An
attribute is a name, optionally followed by `=` and a quoted or unquoted
value; a name with no `=` is a valueless attribute whose value is absent
(`none`, Python `None`). -/
def parseAttrs : Nat → List Char → List (String × Option String)
  | 0, _ => []
  | _ + 1, [] => []
  | fuel + 1, c :: cs =>
    if isPySpace c || c = '/' then parseAttrs fuel cs
    else
      let pr := takeAttrName (c :: cs)
      let name := lowerStr pr.1
      let r1 := pr.2.dropWhile isPySpace
      match r1 with
      | '=' :: rest =>
        let r2 := rest.dropWhile isPySpace
        match r2 with
        | '"' :: r3 =>
          let v := takeValue (fun c2 => c2 = '"') r3
          (name, some (strOf v.1)) :: parseAttrs fuel v.2
        | '\'' :: r3 =>
          let v := takeValue (fun c2 => c2 = '\'') r3
          (name, some (strOf v.1)) :: parseAttrs fuel v.2
        | r3 =>
          let v := takeUnquoted r3
          (name, some (strOf v.1)) :: parseAttrs fuel v.2
      | _ => (name, none) :: parseAttrs fuel pr.2

/-- Modelled from the spec: turn the characters between `<` and `>` into
tokens.  A leading `/` makes an end tag; a trailing `/` makes a self-closing
tag, reported as a start tag followed immediately by an end tag. -/
def parseTagContents (inside : List Char) : List Tok :=
  match inside with
  | '/' :: rest =>
    let r1 := rest.dropWhile isPySpace
    let pr := takeTagName r1
    [Tok.endTag (lowerStr pr.1)]
  | _ =>
    let pr := takeTagName inside
    let name := lowerStr pr.1
    let attrs := parseAttrs pr.2.length pr.2
    if inside.getLast? = some '/' then [Tok.startTag name attrs, Tok.endTag name]
    else [Tok.startTag name attrs]

/-- Modelled from the spec: the single forward pass of the streaming
tokenizer, recognizing start tags, end tags and text data.  A trailing `<...`
with no closing bracket is not a token: it stays in the input buffer (second
component) awaiting further input, exactly as the incremental feed contract
of the external HTML parser library prescribes.  Declarations, comments and
processing instructions are skipped. -/
def tokenizeF : Nat → List Char → List Tok × List Char
  | 0, cs => ([], cs)
  | _ + 1, [] => ([], [])
  | fuel + 1, '<' :: rest =>
    match rest with
    | [] => ([], ['<'])
    | c :: cs =>
      if c.isAlpha || c = '/' then
        match findGt none (c :: cs) with
        | none => ([], '<' :: c :: cs)
        | some pr =>
          let r := tokenizeF fuel pr.2
          (parseTagContents pr.1 ++ r.1, r.2)
      else if c = '!' || c = '?' then
        match findGt none (c :: cs) with
        | none => ([], '<' :: c :: cs)
        | some pr => tokenizeF fuel pr.2
      else
        let r := tokenizeF fuel (c :: cs)
        (Tok.text "<" :: r.1, r.2)
  | fuel + 1, c :: rest =>
    let txt := (c :: rest).takeWhile (fun c2 => c2 != '<')
    let r := tokenizeF fuel ((c :: rest).dropWhile (fun c2 => c2 != '<'))
    (Tok.text (strOf txt) :: r.1, r.2)

/-- Tokenize a character list (fuel = length + 1 suffices: every step
consumes at least one character). -/
def tokenizeChars (cs : List Char) : List Tok × List Char :=
  tokenizeF (cs.length + 1) cs

/-- `HTMLParser.feed` as used by `parse_content`: append the new markup to
the input buffer, consume the complete tokens through the handlers, keep any
incomplete trailing markup buffered. -/
def feed (st : ContentParser) (s : String) : ContentParser :=
  let pr := tokenizeChars (st.rawdata.data ++ s.data)
  feedTokens pr.1 { st with rawdata := ⟨pr.2⟩ }

/-- `ContentParser.parse_content` (lines 74-93): empty or whitespace-only
input short-circuits to no sections; otherwise the per-call fields are reset
(`rawdata`, the inherited input buffer, is NOT among them), the markup is
fed, and the last pending section is saved. -/
def parse_content (html_content : String) (st : ContentParser) :
    List SectionRec × ContentParser :=
  if html_content = "" ∨ pyStrip html_content = "" then ([], st)
  else
    let st1 := { st with sections := [], current_heading := none,
                         current_heading_type := none, current_content := [],
                         in_heading := false, tag_stack := [] }
    let st2 := feed st1 html_content
    let st3 := end_save st2
    (st3.sections, st3)

/-- Token-level run of one parse pass from a fresh state: feed the tokens,
then the end-of-pass save.  This is `parse_content` after tokenization. -/
def run_tokens (toks : List Tok) : List SectionRec :=
  (end_save (feedTokens toks initSt)).sections

mutual

/-- A generic JSON value: object (ordered key-value fields), array, string,
number, boolean, null. -/
inductive Json where
  | obj : Fields → Json
  | arr : Elems → Json
  | str : String → Json
  | num : Int → Json
  | bool : Bool → Json
  | null : Json

/-- Ordered fields of a JSON object (insertion order preserved). -/
inductive Fields where
  | nil : Fields
  | cons : String → Json → Fields → Fields

/-- Ordered elements of a JSON array. -/
inductive Elems where
  | nil : Elems
  | cons : Json → Elems → Elems

end

/-- A section record as the JSON object `parse_content`'s output is dumped
as, with keys `headingType`, `section`, `description` in that order. -/
def sectionToJson (s : SectionRec) : Json :=
  Json.obj (Fields.cons "headingType" (Json.str s.headingType)
    (Fields.cons "section" (Json.str s.sectionText)
      (Fields.cons "description" (Json.str s.description) Fields.nil)))

/-- The section list as a JSON array's elements. -/
def sectionsToElems : List SectionRec → Elems
  | [] => Elems.nil
  | s :: rest => Elems.cons (sectionToJson s) (sectionsToElems rest)

mutual

/-- `transform_content_fields` (lines 96-112): recursively walk the value
tree; a string value under a key literally named `content` is replaced by
the parser's section list; everything else is rebuilt by recursion.  The
single parser instance is threaded through the walk in field order, as
`transform_json_file` reuses one `ContentParser` for the whole document. -/
def transform_content_fields : Json → ContentParser → Json × ContentParser
  | Json.obj fs, p => (Json.obj (transformFields fs p).1, (transformFields fs p).2)
  | Json.arr es, p => (Json.arr (transformElems es p).1, (transformElems es p).2)
  | j, p => (j, p)

/-- The object case of `transform_content_fields`: each key-value pair in
order; `key == 'content' and isinstance(value, str)` triggers the rewrite. -/
def transformFields : Fields → ContentParser → Fields × ContentParser
  | Fields.nil, p => (Fields.nil, p)
  | Fields.cons k (Json.str s) rest, p =>
    if k = "content" then
      (Fields.cons k (Json.arr (sectionsToElems (parse_content s p).1))
         (transformFields rest (parse_content s p).2).1,
       (transformFields rest (parse_content s p).2).2)
    else
      (Fields.cons k (transform_content_fields (Json.str s) p).1
         (transformFields rest (transform_content_fields (Json.str s) p).2).1,
       (transformFields rest (transform_content_fields (Json.str s) p).2).2)
  | Fields.cons k v rest, p =>
    (Fields.cons k (transform_content_fields v p).1
       (transformFields rest (transform_content_fields v p).2).1,
     (transformFields rest (transform_content_fields v p).2).2)

/-- The list case of `transform_content_fields`: each element in order. -/
def transformElems : Elems → ContentParser → Elems × ContentParser
  | Elems.nil, p => (Elems.nil, p)
  | Elems.cons j rest, p =>
    (Elems.cons (transform_content_fields j p).1
       (transformElems rest (transform_content_fields j p).2).1,
     (transformElems rest (transform_content_fields j p).2).2)

end

/-- Is this value a string (`isinstance(value, str)`)? -/
def isStrJ : Json → Bool
  | Json.str _ => true
  | _ => false

mutual

/-- No string value sits directly under a key named `content` anywhere in
the tree: the guard under which the tree walker has nothing left to fire
on. -/
def noContentStrJ : Json → Bool
  | Json.obj fs => noContentStrF fs
  | Json.arr es => noContentStrE es
  | _ => true

/-- `noContentStrJ` over object fields. -/
def noContentStrF : Fields → Bool
  | Fields.nil => true
  | Fields.cons k v rest =>
    (!(k == "content" && isStrJ v)) && noContentStrJ v && noContentStrF rest

/-- `noContentStrJ` over array elements. -/
def noContentStrE : Elems → Bool
  | Elems.nil => true
  | Elems.cons j rest => noContentStrJ j && noContentStrE rest

end

/-- The keys of an object's fields, in order. -/
def fieldKeys : Fields → List String
  | Fields.nil => []
  | Fields.cons k _ rest => k :: fieldKeys rest

/-- The length of an array's element list. -/
def elemsLen : Elems → Nat
  | Elems.nil => 0
  | Elems.cons _ rest => elemsLen rest + 1

/-- The heading types of the sections emitted so far. -/
def emittedTypes (l : List SectionRec) : List String :=
  l.map (fun s => s.headingType)

/-- The heading start tags of a token stream, in document order. -/
def headingTagsOf : List Tok → List String :=
  List.filterMap (fun t =>
    match t with
    | Tok.startTag tg _ => if tg ∈ heading_tags then some tg else none
    | _ => none)

/-- The heading type the pending section would be saved with (`or 'p'`). -/
def pendType (st : ContentParser) : String :=
  pyOr st.current_heading_type "p"

/-- A token that contributes nothing to any buffer: text data, `br` and
preserved start tags are the only content producers. -/
def noContentTok : Tok → Bool
  | Tok.text _ => false
  | Tok.startTag tg _ => !(tg ∈ preserve_tags : Bool) && tg ≠ "br"
  | Tok.endTag _ => true

theorem emittedTypes_append (l1 l2 : List SectionRec) :
    emittedTypes (l1 ++ l2) = emittedTypes l1 ++ emittedTypes l2 := by
  simp [emittedTypes]

theorem heading_tag_ne_empty : ∀ t ∈ heading_tags, t ≠ "" := by decide

/-- `handle_data` changes neither the emitted sections nor the pending
heading type. -/
theorem handle_data_frame (st : ContentParser) (d : String) :
    (handle_data st d).sections = st.sections
    ∧ (handle_data st d).current_heading_type = st.current_heading_type := by
  unfold handle_data
  split_ifs <;> exact ⟨rfl, rfl⟩

/-- `handle_endtag` changes neither the emitted sections nor the pending
heading type. -/
theorem handle_endtag_frame (st : ContentParser) (tag : String) :
    (handle_endtag st tag).sections = st.sections
    ∧ (handle_endtag st tag).current_heading_type = st.current_heading_type := by
  unfold handle_endtag
  split_ifs <;> exact ⟨rfl, rfl⟩

/-- A non-heading start tag changes neither the emitted sections nor the
pending heading type. -/
theorem handle_starttag_frame (st : ContentParser) (tag : String)
    (attrs : List (String × Option String)) (h : tag ∉ heading_tags) :
    (handle_starttag st tag attrs).sections = st.sections
    ∧ (handle_starttag st tag attrs).current_heading_type = st.current_heading_type := by
  unfold handle_starttag
  rw [if_neg h]
  dsimp only
  split_ifs <;> exact ⟨rfl, rfl⟩

/-- A heading start tag first runs the conditional save, then installs the
new heading's type. -/
theorem handle_starttag_heading (st : ContentParser) (tag : String)
    (attrs : List (String × Option String)) (h : tag ∈ heading_tags) :
    (handle_starttag st tag attrs).sections
      = (if st.current_heading ≠ none then save_section st else st).sections
    ∧ (handle_starttag st tag attrs).current_heading_type = some tag := by
  unfold handle_starttag
  rw [if_pos h]
  exact ⟨rfl, rfl⟩

/-- `save_section` either emits nothing or appends exactly one section whose
heading type is the pending one. -/
theorem save_section_types (st : ContentParser) :
    emittedTypes (save_section st).sections = emittedTypes st.sections
    ∨ emittedTypes (save_section st).sections
        = emittedTypes st.sections ++ [pendType st] := by
  unfold save_section
  dsimp only
  split_ifs with h h2
  · right
    simp [emittedTypes, pendType]
  · right
    simp [emittedTypes, pendType]
  · left
    rfl

theorem headingTagsOf_start_mem (tg : String) (attrs : List (String × Option String))
    (rest : List Tok) (h : tg ∈ heading_tags) :
    headingTagsOf (Tok.startTag tg attrs :: rest) = tg :: headingTagsOf rest := by
  simp [headingTagsOf, List.filterMap_cons, h]

theorem headingTagsOf_start_not (tg : String) (attrs : List (String × Option String))
    (rest : List Tok) (h : tg ∉ heading_tags) :
    headingTagsOf (Tok.startTag tg attrs :: rest) = headingTagsOf rest := by
  simp [headingTagsOf, List.filterMap_cons, h]

theorem headingTagsOf_end (tg : String) (rest : List Tok) :
    headingTagsOf (Tok.endTag tg :: rest) = headingTagsOf rest := by
  simp [headingTagsOf, List.filterMap_cons]

theorem headingTagsOf_text (d : String) (rest : List Tok) :
    headingTagsOf (Tok.text d :: rest) = headingTagsOf rest := by
  simp [headingTagsOf, List.filterMap_cons]

/-- Invariant for the order theorem: across a whole pass (feed plus the
end-of-pass save), the heading types of the sections emitted from state `st`
form a sublist of: types already emitted, then the pending type, then the
heading start tags still to come, in order. -/
theorem feed_types_sublist (toks : List Tok) :
    ∀ st : ContentParser,
      List.Sublist (emittedTypes (end_save (feedTokens toks st)).sections)
        (emittedTypes st.sections ++ pendType st :: headingTagsOf toks) := by
  induction toks with
  | nil =>
    intro st
    simp only [feedTokens, List.foldl_nil, headingTagsOf, List.filterMap_nil]
    unfold end_save
    split_ifs with h
    · rcases save_section_types st with h1 | h1
      · rw [h1]
        exact List.sublist_append_left _ _
      · rw [h1]
    · exact List.sublist_append_left _ _
  | cons t rest ih =>
    intro st
    have hfold : feedTokens (t :: rest) st = feedTokens rest (handle_token st t) := by
      simp [feedTokens, List.foldl_cons]
    rw [hfold]
    match t with
    | Tok.text d =>
      have hf := handle_data_frame st d
      have h2 := ih (handle_data st d)
      rw [headingTagsOf_text]
      simpa [handle_token, hf.1, hf.2, pendType] using h2
    | Tok.endTag tg =>
      have hf := handle_endtag_frame st tg
      have h2 := ih (handle_endtag st tg)
      rw [headingTagsOf_end]
      simpa [handle_token, hf.1, hf.2, pendType] using h2
    | Tok.startTag tg attrs =>
      by_cases hm : tg ∈ heading_tags
      · have hh := handle_starttag_heading st tg attrs hm
        have h2 := ih (handle_starttag st tg attrs)
        rw [headingTagsOf_start_mem tg attrs rest hm]
        have hpend : pendType (handle_starttag st tg attrs) = tg := by
          simp [pendType, hh.2, pyOr, heading_tag_ne_empty tg hm]
        simp only [handle_token] at h2 ⊢
        rw [hh.1, hpend] at h2
        refine h2.trans ?_
        by_cases hcur : st.current_heading ≠ none
        · rw [if_pos hcur]
          rcases save_section_types st with h1 | h1
          · rw [h1]
            refine List.Sublist.append_left ?_ _
            exact (List.Sublist.refl _).cons _
          · rw [h1, List.append_assoc]
            exact List.Sublist.refl _
        · rw [if_neg hcur]
          refine List.Sublist.append_left ?_ _
          exact (List.Sublist.refl _).cons _
      · have hf := handle_starttag_frame st tg attrs hm
        have h2 := ih (handle_starttag st tg attrs)
        rw [headingTagsOf_start_not tg attrs rest hm]
        simpa [handle_token, hf.1, hf.2, pendType] using h2

/-- Claim C1 as amended: output sections appear in document order — their
heading types form a sublist of `"p"` followed by the heading start tags in
document order (so at most one leading `p` section, and heading sections
never reordered); content before the first heading is merged into the first
heading's section rather than emitted as its own section 0, because the
finalize rule fires on a heading start tag only when a heading has already
been accumulated.  The concrete two-heading input shows the exact order in
the drop-free case. -/
theorem C1_order_amended :
    (∀ toks : List Tok,
      List.Sublist (emittedTypes (run_tokens toks)) ("p" :: headingTagsOf toks))
    ∧ (parse_content "<h1>A</h1>first<h2>B</h2>second" initSt).1
        = [⟨"h1", "A", "first"⟩, ⟨"h2", "B", "second"⟩] := by
  constructor
  · intro toks
    have h := feed_types_sublist toks initSt
    simpa [run_tokens, emittedTypes, pendType, initSt, pyOr] using h
  · decide

/-- Feeding only structural tokens (no text data, no `br`, no preserved
start tags) from a state with empty buffers leaves the emitted sections
unchanged and the buffers empty: every candidate section has an
empty-or-absent heading buffer and no content, and is discarded. -/
theorem feed_nocontent (toks : List Tok) :
    ∀ st : ContentParser, (∀ t ∈ toks, noContentTok t = true) →
      st.current_content = [] → st.tag_stack = [] →
      (st.current_heading = none ∨ st.current_heading = some "") →
      (feedTokens toks st).sections = st.sections
      ∧ (feedTokens toks st).current_content = []
      ∧ (feedTokens toks st).tag_stack = []
      ∧ ((feedTokens toks st).current_heading = none
          ∨ (feedTokens toks st).current_heading = some "") := by
  induction toks with
  | nil =>
    intro st _ hc hs hh
    exact ⟨rfl, hc, hs, hh⟩
  | cons t rest ih =>
    intro st h hc hs hh
    have hfold : feedTokens (t :: rest) st = feedTokens rest (handle_token st t) := by
      simp [feedTokens, List.foldl_cons]
    rw [hfold]
    have ht : noContentTok t = true := h t (by simp)
    have hrest : ∀ t' ∈ rest, noContentTok t' = true := fun t' h' => h t' (by simp [h'])
    have step : (handle_token st t).sections = st.sections
        ∧ (handle_token st t).current_content = []
        ∧ (handle_token st t).tag_stack = []
        ∧ ((handle_token st t).current_heading = none
            ∨ (handle_token st t).current_heading = some "") := by
      match t with
      | Tok.text d => simp [noContentTok] at ht
      | Tok.endTag tg =>
        simp only [handle_token]
        unfold handle_endtag
        split_ifs with h1 h2 h3
        · exact ⟨rfl, hc, hs, hh⟩
        · exact (h3.1 hs).elim
        · exact ⟨rfl, hc, hs, hh⟩
        · exact ⟨rfl, hc, hs, hh⟩
      | Tok.startTag tg attrs =>
        have hpres : tg ∉ preserve_tags := by
          intro hmem
          simp [noContentTok, hmem] at ht
        have hbr : tg ≠ "br" := by
          intro hbr
          simp [noContentTok, hbr] at ht
        simp only [handle_token]
        unfold handle_starttag
        by_cases hm : tg ∈ heading_tags
        · rw [if_pos hm]
          rcases hh with hh | hh
          · rw [if_neg (by simp [hh])]
            exact ⟨rfl, hc, hs, Or.inr rfl⟩
          · rw [if_pos (by simp [hh])]
            unfold save_section
            rw [if_neg (by simp [hh, hc])]
            exact ⟨rfl, rfl, hs, Or.inr rfl⟩
        · rw [if_neg hm, if_neg hpres, if_neg hbr]
          exact ⟨rfl, hc, hs, hh⟩
    have res := ih (handle_token st t) hrest step.2.1 step.2.2.1 step.2.2.2
    exact ⟨step.1 ▸ res.1, res.2⟩

/-- Does the character list contain two adjacent space characters? -/
def twoSpaces : List Char → Bool
  | c1 :: c2 :: rest => (c1 = ' ' && c2 = ' ') || twoSpaces (c2 :: rest)
  | _ => false

theorem twoSpaces_tail (c : Char) (l : List Char) (h : twoSpaces (c :: l) = false) :
    twoSpaces l = false := by
  match l with
  | [] => rfl
  | c2 :: rest =>
    simp only [twoSpaces, Bool.or_eq_false_iff] at h
    exact h.2

/-- `sub_spaces` keeps the head character (collapsed runs keep one space). -/
theorem sub_spaces_head (c : Char) (l : List Char) :
    (sub_spaces (c :: l)).head? = some c := by
  induction l generalizing c with
  | nil => rfl
  | cons c2 rest ih =>
    by_cases h : c = ' ' ∧ c2 = ' '
    · rw [sub_spaces, if_pos h, ih c2, h.1, h.2]
    · rw [sub_spaces, if_neg h]
      rfl

/-- After the space-collapsing pass no two adjacent spaces remain. -/
theorem twoSpaces_sub_spaces : ∀ l : List Char, twoSpaces (sub_spaces l) = false
  | [] => rfl
  | [_] => rfl
  | c1 :: c2 :: rest => by
    by_cases h : c1 = ' ' ∧ c2 = ' '
    · rw [sub_spaces, if_pos h]
      exact twoSpaces_sub_spaces (c2 :: rest)
    · rw [sub_spaces, if_neg h]
      have ih := twoSpaces_sub_spaces (c2 :: rest)
      have hh := sub_spaces_head c2 rest
      rcases hm : sub_spaces (c2 :: rest) with _ | ⟨y, ys⟩
      · rfl
      · rw [hm] at ih hh
        simp only [List.head?_cons, Option.some_inj] at hh
        subst hh
        rw [twoSpaces]
        refine Bool.or_eq_false_iff.mpr ⟨?_, ih⟩
        by_cases hc1 : c1 = ' '
        · have hy : ¬(y = ' ') := fun hy => h ⟨hc1, hy⟩
          simp [hy]
        · simp [hc1]

theorem twoSpaces_dropWhile (p : Char → Bool) :
    ∀ l : List Char, twoSpaces l = false → twoSpaces (l.dropWhile p) = false
  | [], h => h
  | c :: rest, h => by
    rw [List.dropWhile_cons]
    split_ifs with hp
    · exact twoSpaces_dropWhile p rest (twoSpaces_tail c rest h)
    · exact h

/-- `rstripL` is either empty or keeps the head and right-strips the tail. -/
theorem rstripL_shape (l : List Char) :
    rstripL l = [] ∨ ∃ c rest, l = c :: rest ∧ rstripL l = c :: rstripL rest := by
  match l with
  | [] => exact Or.inl rfl
  | c :: rest =>
    rcases hm : rstripL rest with _ | ⟨y, ys⟩
    · by_cases hc : isPySpace c
      · exact Or.inl (by rw [rstripL, hm]; simp [hc])
      · exact Or.inr ⟨c, rest, rfl, by rw [rstripL, hm]; simp [hc, hm]⟩
    · exact Or.inr ⟨c, rest, rfl, by rw [rstripL, hm]⟩

theorem twoSpaces_rstripL : ∀ l : List Char, twoSpaces l = false →
    twoSpaces (rstripL l) = false
  | [], h => h
  | c :: rest, h => by
    rcases rstripL_shape (c :: rest) with hm | ⟨c', rest', heq, hm⟩
    · rw [hm]
      rfl
    · injection heq with h1 h2
      subst h1
      subst h2
      rw [hm]
      have ih := twoSpaces_rstripL rest (twoSpaces_tail c rest h)
      rcases hsh : rstripL rest with _ | ⟨y, ys⟩
      · rfl
      · rw [hsh] at ih
        rcases rstripL_shape rest with hm2 | ⟨c2, rest2, heq2, hm2⟩
        · rw [hm2] at hsh
          cases hsh
        · rw [hm2] at hsh
          injection hsh with hy hys
          subst heq2
          subst hy
          rw [twoSpaces]
          refine Bool.or_eq_false_iff.mpr ⟨?_, ih⟩
          simp only [twoSpaces, Bool.or_eq_false_iff] at h
          exact h.1

/-- Python `strip` cannot create adjacent spaces. -/
theorem twoSpaces_pyStripL (l : List Char) (h : twoSpaces l = false) :
    twoSpaces (pyStripL l) = false :=
  twoSpaces_rstripL _ (twoSpaces_dropWhile _ _ h)

/-- Claim C5 as amended: the first normalization pass replaces each leftmost
match of `newline, optional whitespace, one or more newlines` by exactly one
blank line — whitespace flanking the matched core survives, so a run of
whitespace containing two newlines need not collapse to a bare `"\n\n"`; the
second pass collapses space runs, so no emitted description ever contains
two adjacent spaces; `"a\n\n\n\nb"` still yields `"a\n\nb"` and four spaces
still collapse to one. -/
theorem C5_normalize_amended :
    (∀ parts : List String, twoSpaces (normalize_description parts).data = false)
    ∧ (parse_content "a\n\n\n\nb" initSt).1 = [⟨"p", "", "a\n\nb"⟩]
    ∧ (parse_content "a    b" initSt).1 = [⟨"p", "", "a b"⟩] := by
  refine ⟨?_, by decide, by decide⟩
  intro parts
  exact twoSpaces_pyStripL _ (twoSpaces_sub_spaces _)

/-- `save_section` emits nothing when its (pre-trim) guard fails. -/
theorem save_section_noemit (st : ContentParser)
    (h : ¬(st.current_heading.getD "" ≠ "" ∨ st.current_content ≠ [])) :
    (save_section st).sections = st.sections := by
  unfold save_section
  rw [if_neg h]

/-- Claim C2 as amended: a section record is emitted exactly when the heading
buffer is non-empty BEFORE trimming or the accumulated content is non-empty
(the guard is Python truthiness of the untrimmed heading string, not of its
trimmed form); a section whose heading buffer is empty or absent and whose
content is empty is silently discarded — in particular a pass seeing only
structural tags and empty headings emits nothing. -/
theorem C2_guard_amended :
    (∀ st : ContentParser,
        ((save_section st).sections.length = st.sections.length + 1
          ↔ (st.current_heading.getD "" ≠ "" ∨ st.current_content ≠ []))
        ∧ ((save_section st).sections.length = st.sections.length
          ↔ ¬(st.current_heading.getD "" ≠ "" ∨ st.current_content ≠ [])))
    ∧ (∀ toks : List Tok, (∀ t ∈ toks, noContentTok t = true) →
        run_tokens toks = []) := by
  constructor
  · intro st
    constructor
    · unfold save_section
      dsimp only
      split_ifs with h h2 <;> simp [h]
    · unfold save_section
      dsimp only
      split_ifs with h h2 <;> simp [h]
  · intro toks hts
    have hfeed := feed_nocontent toks initSt hts rfl rfl (Or.inl rfl)
    unfold run_tokens end_save
    split_ifs with h
    · have hne : (save_section (feedTokens toks initSt)).sections
          = (feedTokens toks initSt).sections := by
        apply save_section_noemit
        rintro (hg | hg)
        · rcases hfeed.2.2.2 with hhd | hhd <;> simp [hhd] at hg
        · exact hg hfeed.2.1
      rw [hne, hfeed.1]
      rfl
    · rw [hfeed.1]
      rfl

/-- Witness for the amended C2 at a concrete tags-only token stream. -/
theorem C2_guard_amended_witness :
    (∀ t ∈ ([Tok.startTag "h1" [], Tok.endTag "h1", Tok.startTag "ul" [],
             Tok.endTag "ul"] : List Tok), noContentTok t = true)
    ∧ run_tokens [Tok.startTag "h1" [], Tok.endTag "h1", Tok.startTag "ul" [],
                  Tok.endTag "ul"] = [] :=
  ⟨by decide, C2_guard_amended.2 _ (by decide)⟩

/-- Claim C9: an input that is empty or strips to the empty string is
answered with an empty section sequence, before any parsing. -/
theorem C9_empty_input (s : String) (st : ContentParser) (h : pyStrip s = "") :
    parse_content s st = ([], st) := by
  unfold parse_content
  rw [if_pos (Or.inr h)]

/-- Witness for C9 at the concrete whitespace-only input `"  \n "`. -/
theorem C9_empty_input_witness :
    pyStrip "  \n " = "" ∧ parse_content "  \n " initSt = ([], initSt) :=
  ⟨by decide, C9_empty_input "  \n " initSt (by decide)⟩

/-- Claim C3 (code bug): `parse_content` does not reset the inherited input
buffer, so a call on a reused instance can observe markup buffered by a
previous call.  After `parse("<b")` leaves `<b` buffered, `parse(">x")` on
the same instance yields a section whose description is `<b>x`, while a
fresh instance yields `>x`. -/
theorem C3_reuse_leak :
    (parse_content ">x" (parse_content "<b" initSt).2).1 = [⟨"p", "", "<b>x"⟩]
    ∧ (parse_content ">x" initSt).1 = [⟨"p", "", ">x"⟩]
    ∧ (parse_content ">x" (parse_content "<b" initSt).2).1
        ≠ (parse_content ">x" initSt).1 := by
  refine ⟨by decide, by decide, by decide⟩

/-- Counterexample to claim C1 as stated: on `x<h1>A</h1>b` the pre-heading
text `x` is NOT emitted as a section 0 with heading type `p`; it is merged
into the first heading's section, because the finalize-on-heading-start rule
fires only when a heading (not mere content) has been accumulated. -/
theorem C1_counterexample :
    (parse_content "x<h1>A</h1>b" initSt).1 ≠ [⟨"p", "", "x"⟩, ⟨"h1", "A", "b"⟩]
    ∧ (parse_content "x<h1>A</h1>b" initSt).1 = [⟨"h1", "A", "xb"⟩] := by
  refine ⟨by decide, by decide⟩

/-- Counterexample to claim C2 as stated: the emission guard tests the
heading buffer before trimming, so a whitespace-only heading with no content
IS emitted (as a record with empty trimmed heading and empty description),
where the claim demands it be discarded. -/
theorem C2_counterexample :
    (parse_content "<h1> </h1>" initSt).1 ≠ []
    ∧ (parse_content "<h1> </h1>" initSt).1 = [⟨"h1", "", ""⟩]
    ∧ pyStrip " " = "" := by
  refine ⟨by decide, by decide, by decide⟩

/-- Counterexample to claim C5 as stated: in `a \n \n b` the maximal
whitespace run between `a` and `b` contains two newlines, yet it is NOT
normalized to exactly two newlines: the spaces flanking the matched
`newline-whitespace-newline` core survive, giving `a \n\n b`. -/
theorem C5_counterexample :
    (parse_content "a \n \n b" initSt).1 ≠ [⟨"p", "", "a\n\nb"⟩]
    ∧ (parse_content "a \n \n b" initSt).1 = [⟨"p", "", "a \n\n b"⟩] := by
  refine ⟨by decide, by decide⟩

/-- Section records serialize to objects with no `content` key at all. -/
theorem sectionsElems_noCS : ∀ l : List SectionRec,
    noContentStrE (sectionsToElems l) = true
  | [] => rfl
  | s :: rest => by
    simp only [sectionsToElems, noContentStrE, Bool.and_eq_true]
    exact ⟨rfl, sectionsElems_noCS rest⟩

mutual

/-- After one pass of the tree walker, no string value remains directly
under a `content` key. -/
theorem transform_noCS : ∀ (j : Json) (p : ContentParser),
    noContentStrJ (transform_content_fields j p).1 = true
  | Json.obj fs, p => by
    simp only [transform_content_fields, noContentStrJ]
    exact transformF_noCS fs p
  | Json.arr es, p => by
    simp only [transform_content_fields, noContentStrJ]
    exact transformE_noCS es p
  | Json.str _, _ => rfl
  | Json.num _, _ => rfl
  | Json.bool _, _ => rfl
  | Json.null, _ => rfl

/-- `transform_noCS` over object fields. -/
theorem transformF_noCS : ∀ (fs : Fields) (p : ContentParser),
    noContentStrF (transformFields fs p).1 = true
  | Fields.nil, _ => rfl
  | Fields.cons k (Json.str s) rest, p => by
    by_cases hk : k = "content"
    · simp only [transformFields, if_pos hk]
      simp only [noContentStrF, Bool.and_eq_true, Bool.not_eq_true',
        Bool.and_eq_false_iff]
      refine ⟨⟨Or.inr rfl, ?_⟩, transformF_noCS rest _⟩
      simp only [noContentStrJ]
      exact sectionsElems_noCS _
    · simp only [transformFields, if_neg hk]
      simp only [noContentStrF, Bool.and_eq_true, Bool.not_eq_true',
        Bool.and_eq_false_iff]
      exact ⟨⟨Or.inl (by simp [hk]), rfl⟩, transformF_noCS rest _⟩
  | Fields.cons k (Json.obj fs2) rest, p => by
    simp only [transformFields, noContentStrF, Bool.and_eq_true, Bool.not_eq_true',
      Bool.and_eq_false_iff]
    exact ⟨⟨Or.inr rfl, transform_noCS (Json.obj fs2) p⟩, transformF_noCS rest _⟩
  | Fields.cons k (Json.arr es) rest, p => by
    simp only [transformFields, noContentStrF, Bool.and_eq_true, Bool.not_eq_true',
      Bool.and_eq_false_iff]
    exact ⟨⟨Or.inr rfl, transform_noCS (Json.arr es) p⟩, transformF_noCS rest _⟩
  | Fields.cons k (Json.num n) rest, p => by
    simp only [transformFields, noContentStrF, Bool.and_eq_true, Bool.not_eq_true',
      Bool.and_eq_false_iff]
    exact ⟨⟨Or.inr rfl, rfl⟩, transformF_noCS rest _⟩
  | Fields.cons k (Json.bool b) rest, p => by
    simp only [transformFields, noContentStrF, Bool.and_eq_true, Bool.not_eq_true',
      Bool.and_eq_false_iff]
    exact ⟨⟨Or.inr rfl, rfl⟩, transformF_noCS rest _⟩
  | Fields.cons k Json.null rest, p => by
    simp only [transformFields, noContentStrF, Bool.and_eq_true, Bool.not_eq_true',
      Bool.and_eq_false_iff]
    exact ⟨⟨Or.inr rfl, rfl⟩, transformF_noCS rest _⟩

/-- `transform_noCS` over array elements. -/
theorem transformE_noCS : ∀ (es : Elems) (p : ContentParser),
    noContentStrE (transformElems es p).1 = true
  | Elems.nil, _ => rfl
  | Elems.cons j rest, p => by
    simp only [transformElems, noContentStrE, Bool.and_eq_true]
    exact ⟨transform_noCS j p, transformE_noCS rest _⟩

end

mutual

/-- The tree walker is the identity (and leaves the parser state untouched)
on trees with no string value directly under a `content` key. -/
theorem transform_id : ∀ (j : Json) (p : ContentParser),
    noContentStrJ j = true → transform_content_fields j p = (j, p)
  | Json.obj fs, p, h => by
    simp only [noContentStrJ] at h
    simp only [transform_content_fields, transformF_id fs p h]
  | Json.arr es, p, h => by
    simp only [noContentStrJ] at h
    simp only [transform_content_fields, transformE_id es p h]
  | Json.str _, _, _ => rfl
  | Json.num _, _, _ => rfl
  | Json.bool _, _, _ => rfl
  | Json.null, _, _ => rfl

/-- `transform_id` over object fields. -/
theorem transformF_id : ∀ (fs : Fields) (p : ContentParser),
    noContentStrF fs = true → transformFields fs p = (fs, p)
  | Fields.nil, _, _ => rfl
  | Fields.cons k (Json.str s) rest, p, h => by
    simp only [noContentStrF, Bool.and_eq_true, Bool.not_eq_true',
      Bool.and_eq_false_iff, isStrJ] at h
    have hk : ¬k = "content" := by
      rcases h.1.1 with hx | hx
      · simpa using hx
      · cases hx
    simp only [transformFields, if_neg hk]
    simp only [transform_content_fields, transformF_id rest p h.2]
  | Fields.cons k (Json.obj fs2) rest, p, h => by
    simp only [noContentStrF, Bool.and_eq_true] at h
    simp only [transformFields, transform_id (Json.obj fs2) p h.1.2,
      transformF_id rest p h.2]
  | Fields.cons k (Json.arr es) rest, p, h => by
    simp only [noContentStrF, Bool.and_eq_true] at h
    simp only [transformFields, transform_id (Json.arr es) p h.1.2,
      transformF_id rest p h.2]
  | Fields.cons k (Json.num n) rest, p, h => by
    simp only [noContentStrF, Bool.and_eq_true] at h
    simp only [transformFields, transform_content_fields, transformF_id rest p h.2]
  | Fields.cons k (Json.bool b) rest, p, h => by
    simp only [noContentStrF, Bool.and_eq_true] at h
    simp only [transformFields, transform_content_fields, transformF_id rest p h.2]
  | Fields.cons k Json.null rest, p, h => by
    simp only [noContentStrF, Bool.and_eq_true] at h
    simp only [transformFields, transform_content_fields, transformF_id rest p h.2]

/-- `transform_id` over array elements. -/
theorem transformE_id : ∀ (es : Elems) (p : ContentParser),
    noContentStrE es = true → transformElems es p = (es, p)
  | Elems.nil, _, _ => rfl
  | Elems.cons j rest, p, h => by
    simp only [noContentStrE, Bool.and_eq_true] at h
    simp only [transformElems, transform_id j p h.1, transformE_id rest p h.2]

end

/-- Claim C4: the rewrite is idempotent — after one pass every `content`
field holds a sequence (or was not a string to begin with), the rule fires
only on string-valued `content` fields, so a second pass is the identity on
the tree and even on the threaded parser state, whatever that state is. -/
theorem C4_idempotent (j : Json) (p q : ContentParser) :
    transform_content_fields (transform_content_fields j p).1 q
      = ((transform_content_fields j p).1, q) :=
  transform_id _ q (transform_noCS j p)

/-- The tree walker preserves object keys, in order. -/
theorem transformF_keys : ∀ (fs : Fields) (p : ContentParser),
    fieldKeys (transformFields fs p).1 = fieldKeys fs
  | Fields.nil, _ => rfl
  | Fields.cons k v rest, p => by
    have ih := fun p' => transformF_keys rest p'
    cases v <;> simp only [transformFields] <;>
      first
        | (split_ifs <;> simp [fieldKeys, ih])
        | simp [fieldKeys, ih]

/-- The tree walker preserves array lengths. -/
theorem transformE_len : ∀ (es : Elems) (p : ContentParser),
    elemsLen (transformElems es p).1 = elemsLen es
  | Elems.nil, _ => rfl
  | Elems.cons j rest, p => by
    simp only [transformElems, elemsLen, transformE_len rest _]

/-- Claim C6: the rewrite is a frame on everything but string-valued
`content` fields — objects keep the same keys in the same order, arrays keep
their length, scalars (strings not under a `content` key, numbers, booleans,
null) are returned unchanged with the parser state untouched; in the
two-field document only `content` is transformed and `title` keeps its
literal markup string. -/
theorem C6_frame :
    (∀ (fs : Fields) (p : ContentParser),
        fieldKeys (transformFields fs p).1 = fieldKeys fs)
    ∧ (∀ (es : Elems) (p : ContentParser),
        elemsLen (transformElems es p).1 = elemsLen es)
    ∧ (∀ (s : String) (p : ContentParser),
        transform_content_fields (Json.str s) p = (Json.str s, p))
    ∧ (∀ (n : Int) (p : ContentParser),
        transform_content_fields (Json.num n) p = (Json.num n, p))
    ∧ (∀ (b : Bool) (p : ContentParser),
        transform_content_fields (Json.bool b) p = (Json.bool b, p))
    ∧ (∀ p : ContentParser, transform_content_fields Json.null p = (Json.null, p))
    ∧ (transform_content_fields
        (Json.obj (Fields.cons "title" (Json.str "<h1>X</h1>")
          (Fields.cons "content" (Json.str "<h1>Y</h1>") Fields.nil))) initSt).1
      = Json.obj (Fields.cons "title" (Json.str "<h1>X</h1>")
          (Fields.cons "content"
            (Json.arr (Elems.cons (sectionToJson ⟨"h1", "Y", ""⟩) Elems.nil))
            Fields.nil)) :=
  ⟨transformF_keys, transformE_len, fun _ _ => rfl, fun _ _ => rfl,
   fun _ _ => rfl, fun _ => rfl, rfl⟩

theorem preserve_not_heading : ∀ t ∈ preserve_tags, t ∉ heading_tags := by decide

/-- Claim C7: a preserved inline start tag is serialized back into the
content stream (attributes as `name="value"` pairs joined by spaces) and
pushed on the open-tag stack; an end tag emits closing markup and pops only
when it matches the top of the stack, and a mismatched or stray end tag
changes nothing; the no-heading example yields one `p` section whose
description keeps the `b` markup verbatim. -/
theorem C7_preserve :
    (∀ (st : ContentParser) (tag : String) (attrs : List (String × Option String)),
        tag ∈ preserve_tags →
        (handle_starttag st tag attrs).current_content
          = st.current_content ++
              [if attrsStr attrs ≠ "" then "<" ++ tag ++ " " ++ attrsStr attrs ++ ">"
               else "<" ++ tag ++ ">"]
        ∧ (handle_starttag st tag attrs).tag_stack = st.tag_stack ++ [tag])
    ∧ (∀ (st : ContentParser) (tag : String), tag ∈ preserve_tags →
        st.tag_stack.getLast? = some tag →
        (handle_endtag st tag).current_content
          = st.current_content ++ ["</" ++ tag ++ ">"]
        ∧ (handle_endtag st tag).tag_stack = st.tag_stack.dropLast)
    ∧ (∀ (st : ContentParser) (tag : String), tag ∈ preserve_tags →
        ¬st.tag_stack.getLast? = some tag → handle_endtag st tag = st)
    ∧ (parse_content "<p>Hello <b>world</b>!</p>" initSt).1
        = [⟨"p", "", "Hello <b>world</b>!"⟩] := by
  refine ⟨?_, ?_, ?_, by decide⟩
  · intro st tag attrs hm
    unfold handle_starttag
    rw [if_neg (preserve_not_heading tag hm), if_pos hm]
    dsimp only
    split_ifs <;> exact ⟨rfl, rfl⟩
  · intro st tag hm hlast
    have hne : st.tag_stack ≠ [] := by
      intro h0
      rw [h0] at hlast
      cases hlast
    unfold handle_endtag
    rw [if_neg (preserve_not_heading tag hm), if_pos hm, if_pos ⟨hne, hlast⟩]
    exact ⟨rfl, rfl⟩
  · intro st tag hm hlast
    unfold handle_endtag
    rw [if_neg (preserve_not_heading tag hm), if_pos hm,
      if_neg (fun hc => hlast hc.2)]

/-- Witness for C7 at concrete states: serialization and push for `<b>`, the
matching pop for `</b>` on stack `["b"]`, and the stray `</b>` on stack
`["i"]` left untouched. -/
theorem C7_preserve_witness :
    (handle_starttag initSt "b" []).tag_stack = initSt.tag_stack ++ ["b"]
    ∧ (handle_endtag { initSt with tag_stack := ["b"] } "b").current_content
        = ({ initSt with tag_stack := ["b"] } : ContentParser).current_content
            ++ ["</b>"]
    ∧ handle_endtag { initSt with tag_stack := ["i"] } "b"
        = { initSt with tag_stack := ["i"] } :=
  ⟨(C7_preserve.1 initSt "b" [] (by decide)).2,
   (C7_preserve.2.1 { initSt with tag_stack := ["b"] } "b" (by decide) (by decide)).1,
   C7_preserve.2.2.1 { initSt with tag_stack := ["i"] } "b" (by decide) (by decide)⟩

/-- Claim C8: the pass is total and tolerant — a start tag that is neither a
heading, nor preserved, nor `br` changes nothing; an end tag that is neither
a heading nor preserved changes nothing; text data always flows into the
active buffer; malformed markup (unknown or unclosed tags) still yields the
nested text, never an error (every embedded function here is total). -/
theorem C8_tolerant :
    (∀ (st : ContentParser) (tag : String) (attrs : List (String × Option String)),
        tag ∉ heading_tags → tag ∉ preserve_tags → tag ≠ "br" →
        handle_starttag st tag attrs = st)
    ∧ (∀ (st : ContentParser) (tag : String),
        tag ∉ heading_tags → tag ∉ preserve_tags → handle_endtag st tag = st)
    ∧ (∀ (st : ContentParser) (d : String),
        (handle_data st d).current_content
          = st.current_content ++ (if st.in_heading then [] else [d])
        ∧ (handle_data st d).current_heading
          = (if st.in_heading then some (st.current_heading.getD "" ++ d)
             else st.current_heading))
    ∧ (parse_content "<div><foo>text" initSt).1 = [⟨"p", "", "text"⟩]
    ∧ (parse_content "a<b" initSt).1 = [⟨"p", "", "a"⟩] := by
  refine ⟨?_, ?_, ?_, by decide, by decide⟩
  · intro st tag attrs h1 h2 h3
    unfold handle_starttag
    rw [if_neg h1, if_neg h2, if_neg h3]
  · intro st tag h1 h2
    unfold handle_endtag
    rw [if_neg h1, if_neg h2]
  · intro st d
    unfold handle_data
    split_ifs with h
    · exact ⟨by simp, rfl⟩
    · exact ⟨rfl, rfl⟩

/-- Witness for C8: the structural tags `div` and `span` are transparent. -/
theorem C8_tolerant_witness :
    handle_starttag initSt "div" [] = initSt
    ∧ handle_endtag initSt "span" = initSt :=
  ⟨C8_tolerant.1 initSt "div" [] (by decide) (by decide) (by decide),
   C8_tolerant.2.1 initSt "span" (by decide) (by decide)⟩

/-- Claim C10: a valueless (boolean) attribute on a preserved start tag is
serialized with the literal text `None` as its value, because the absent
value interpolates directly into the `name="value"` template. -/
theorem C10_none_attr :
    (∀ k : String, attrsStr [(k, none)] = k ++ "=\"None\"")
    ∧ (∀ (st : ContentParser) (tag k : String), tag ∈ preserve_tags →
        (handle_starttag st tag [(k, none)]).current_content
          = st.current_content ++ ["<" ++ tag ++ " " ++ k ++ "=\"None\">"])
    ∧ (parse_content "<a download>x</a>" initSt).1
        = [⟨"p", "", "<a download=\"None\">x</a>"⟩] := by
  have hser : ∀ k : String, attrsStr [(k, none)] = k ++ "=\"None\"" := by
    intro k
    show (k ++ "=\"" ++ "None" ++ "\"") = k ++ "=\"None\""
    rw [String.append_assoc, String.append_assoc]
    rfl
  refine ⟨hser, ?_, by decide⟩
  intro st tag k hm
  have hlen : (k ++ "=\"None\"").length = k.length + 7 := by
    rw [String.length_append]
    rfl
  have hne : attrsStr [(k, none)] ≠ "" := by
    rw [hser k]
    intro h0
    have h1 := congrArg String.length h0
    rw [hlen] at h1
    simp at h1
  unfold handle_starttag
  rw [if_neg (preserve_not_heading tag hm), if_pos hm]
  dsimp only
  rw [if_pos hne, hser k]
  simp [String.append_assoc]

/-- Witness for C10: the `a` tag with the valueless `download` attribute. -/
theorem C10_none_attr_witness :
    (handle_starttag initSt "a" [("download", none)]).current_content
      = initSt.current_content ++ ["<a download=\"None\">"] :=
  C10_none_attr.2.1 initSt "a" "download" (by decide)
